import Mathlib

/-!
Verification of the local-wallet repository (Go) against its specification.

The development shallowly embeds the wallet's core components:
* the amount codec (`internal/common`): `formatWithDecimals`, `parseWithDecimals`,
  `CompareUSDCAmounts` and the currency wrappers;
* the transaction reconciler (`internal/client`, `parseTransaction`);
* the vault crypto pipeline (`internal/crypto`: `EncryptWallet`, `DecryptWallet`)
  and wallet generation (`solana/generate.go`);
* the pay guard (`solana` package: `PayUSDC`, `PaySOL`);
* history filtering, validation and totals (`solana` package `GetTransactions`,
  `internal/model` `Validate`).

Strings are embedded as `List Char`, byte slices as `List Nat`.  Machine
integers (`uint64`) are `Nat` with explicit `% 2 ^ 64` where Go wraps.
Fallible Go functions returning `(T, error)` become `Except Unit T` (the
repository only ever branches on error presence / one error type, so error
payloads are collapsed).
-/

abbrev Str := List Char

abbrev Bytes := List Nat

/-! ## Amount codec (`internal/common/...`)

`natToDecChars` models Go's `fmt.Sprintf("%d", value)` for an unsigned value:
the usual base-10 digit expansion, most significant digit first. -/

def decDigitChar (d : Nat) : Char := Char.ofNat (48 + d)

def natToDecCharsAux : Nat → Nat → Str
  | 0, _ => []
  | fuel + 1, n =>
    if n < 10 then [decDigitChar n]
    else natToDecCharsAux fuel (n / 10) ++ [decDigitChar (n % 10)]

def natToDecChars (n : Nat) : Str := natToDecCharsAux (n + 1) n

/-- A character in `0`..`9`, as tested by Go's `strconv` digit parsing. -/
def isDecDigit (c : Char) : Bool := 48 ≤ c.toNat && c.toNat ≤ 57

def decDigitVal (c : Char) : Nat := c.toNat - 48

/-- Numeric value of a digit string, most significant digit first. -/
def charsVal (cs : Str) : Nat := cs.foldl (fun a c => a * 10 + decDigitVal c) 0

/-- Models `strconv.ParseUint(s, 10, 64)`: rejects the empty string, any
non-digit character, and values that do not fit in 64 bits. -/
def parseUint64 (cs : Str) : Except Unit Nat :=
  if cs = [] then .error ()
  else if cs.all isDecDigit then
    if charsVal cs < 2 ^ 64 then .ok (charsVal cs) else .error ()
  else .error ()

/-- Models `strings.Split(s, sep)` for a one-character separator: `n`
separators yield `n + 1` (possibly empty) fields. -/
def splitOnChar (sep : Char) : Str → List Str
  | [] => [[]]
  | c :: rest =>
    if c = sep then [] :: splitOnChar sep rest
    else
      match splitOnChar sep rest with
      | [] => [[c]]
      | h :: t => (c :: h) :: t

/-- Models `strings.TrimSpace`: drop whitespace from both ends. -/
def trimSpace (s : Str) : Str :=
  ((s.dropWhile Char.isWhitespace).reverse.dropWhile Char.isWhitespace).reverse

/-- Source `formatWithDecimals` (internal/common): render `value`, left-pad
with zeros while the length is at most `decimals`, then insert the decimal
point `decimals` places from the right.  The source prepends `"0"` one
character at a time; prepending `List.replicate` of the deficit is the same
final string. -/
def formatWithDecimals (value decimals : Nat) : Str :=
  let s := natToDecChars value
  let s := List.replicate (decimals + 1 - s.length) '0' ++ s
  let pos := s.length - decimals
  s.take pos ++ '.' :: s.drop pos

/-- Source `parseWithDecimals` (internal/common): trim, split on the decimal
point; with no point multiply by `10 ^ decimals` with Go's wrapping `uint64`
multiplication; with a point pad or truncate the fractional part to exactly
`decimals` digits and parse the concatenation. -/
def parseWithDecimals (s : Str) (decimals : Nat) : Except Unit Nat :=
  let s := trimSpace s
  if s = [] then .error ()
  else
    match splitOnChar '.' s with
    | [p] => do
      let n ← parseUint64 p
      return (List.range decimals).foldl (fun acc _ => acc * 10 % 2 ^ 64) n
    | [whole, frac] =>
      let frac :=
        if frac.length < decimals then frac ++ List.replicate (decimals - frac.length) '0'
        else if decimals < frac.length then frac.take decimals
        else frac
      parseUint64 (whole ++ frac)
    | _ => .error ()

def SOLDecimals : Nat := 9

def USDCDecimals : Nat := 6

def lamportsToSOL (lamports : Nat) : Str := formatWithDecimals lamports SOLDecimals

def solToLamports (sol : Str) : Except Unit Nat := parseWithDecimals sol SOLDecimals

def microToUSDC (micro : Nat) : Str := formatWithDecimals micro USDCDecimals

def usdcToMicro (usdc : Str) : Except Unit Nat := parseWithDecimals usdc USDCDecimals

/-- Source `CompareUSDCAmounts`: parse both at 6 decimals and compare as
integers. -/
def compareUSDCAmounts (a b : Str) : Except Unit Int :=
  match parseWithDecimals a USDCDecimals, parseWithDecimals b USDCDecimals with
  | .error _, _ => .error ()
  | _, .error _ => .error ()
  | .ok x, .ok y => .ok (if x < y then -1 else if y < x then 1 else 0)

/-! ### Codec lemmas -/

theorem decDigitVal_decDigitChar {d : Nat} (h : d < 10) :
    decDigitVal (decDigitChar d) = d := by
  interval_cases d <;> decide

theorem isDecDigit_decDigitChar {d : Nat} (h : d < 10) :
    isDecDigit (decDigitChar d) = true := by
  interval_cases d <;> decide

theorem charsVal_append (a b : Str) :
    charsVal (a ++ b) = charsVal a * 10 ^ b.length + charsVal b := by
  induction b using List.reverseRecOn with
  | nil => simp [charsVal]
  | append_singleton b c ih =>
    simp only [charsVal, List.foldl_append, List.foldl_cons, List.foldl_nil] at *
    rw [ih]
    simp only [List.length_append, List.length_cons, List.length_nil, pow_succ, pow_add, pow_one]
    ring

theorem charsVal_natToDecCharsAux (n : Nat) :
    ∀ fuel, n < fuel → charsVal (natToDecCharsAux fuel n) = n := by
  induction n using Nat.strongRecOn with
  | _ n ih =>
    intro fuel hfuel
    match fuel with
    | f + 1 =>
      rw [natToDecCharsAux]
      split
      · simp [charsVal, decDigitVal_decDigitChar, *]
      · have hdivlt : n / 10 < n := Nat.div_lt_self (by omega) (by omega)
        rw [charsVal_append, ih (n / 10) hdivlt f (by omega)]
        simp only [List.length_cons, List.length_nil, pow_one, charsVal, List.foldl_cons,
          List.foldl_nil]
        rw [decDigitVal_decDigitChar (Nat.mod_lt n (by omega))]
        omega

theorem charsVal_natToDecChars (n : Nat) : charsVal (natToDecChars n) = n :=
  charsVal_natToDecCharsAux n (n + 1) (Nat.lt_succ_self n)

theorem natToDecChars_ne_nil (n : Nat) : natToDecChars n ≠ [] := by
  rw [natToDecChars, natToDecCharsAux]
  split
  · simp
  · simp

theorem natToDecCharsAux_all_digits (n : Nat) :
    ∀ fuel, n < fuel → ∀ c ∈ natToDecCharsAux fuel n, isDecDigit c = true := by
  induction n using Nat.strongRecOn with
  | _ n ih =>
    intro fuel hfuel
    match fuel with
    | f + 1 =>
      rw [natToDecCharsAux]
      split
      · intro c hc
        simp only [List.mem_singleton] at hc
        subst hc
        exact isDecDigit_decDigitChar (by omega)
      · intro c hc
        rw [List.mem_append] at hc
        rcases hc with hc | hc
        · have hdivlt : n / 10 < n := Nat.div_lt_self (by omega) (by omega)
          exact ih (n / 10) hdivlt f (by omega) c hc
        · simp only [List.mem_singleton] at hc
          subst hc
          exact isDecDigit_decDigitChar (Nat.mod_lt n (by omega))

theorem natToDecChars_all_digits (n : Nat) :
    ∀ c ∈ natToDecChars n, isDecDigit c = true :=
  natToDecCharsAux_all_digits n (n + 1) (Nat.lt_succ_self n)

theorem charsVal_replicate_zero (k : Nat) : charsVal (List.replicate k '0') = 0 := by
  induction k with
  | zero => rfl
  | succ k ih =>
    simp only [List.replicate_succ, charsVal, List.foldl_cons] at *
    simpa using ih

theorem ne_dot_of_isDecDigit {c : Char} (h : isDecDigit c = true) : c ≠ '.' := by
  intro hh
  subst hh
  exact absurd h (by decide)

theorem not_whitespace_of_isDecDigit {c : Char} (h : isDecDigit c = true) :
    c.isWhitespace = false := by
  by_contra hw
  rw [Bool.not_eq_false, Char.isWhitespace] at hw
  simp only [Bool.or_eq_true, decide_eq_true_eq] at hw
  rcases hw with ((rfl | rfl) | rfl) | rfl <;> exact absurd h (by decide)

theorem dropWhile_eq_self_of_none {p : Char → Bool} {l : Str}
    (h : ∀ c ∈ l, p c = false) : l.dropWhile p = l := by
  cases l with
  | nil => rfl
  | cons c t =>
    rw [List.dropWhile_cons, if_neg]
    simp [h c (List.mem_cons_self c t)]

theorem trimSpace_eq_self {l : Str} (h : ∀ c ∈ l, c.isWhitespace = false) :
    trimSpace l = l := by
  unfold trimSpace
  rw [dropWhile_eq_self_of_none h, dropWhile_eq_self_of_none, List.reverse_reverse]
  intro c hc
  exact h c (List.mem_reverse.mp hc)

theorem splitOnChar_of_not_mem {sep : Char} {s : Str} (h : sep ∉ s) :
    splitOnChar sep s = [s] := by
  induction s with
  | nil => rfl
  | cons c t ih =>
    have hc : ¬c = sep := fun hh => h (hh ▸ List.mem_cons_self c t)
    rw [splitOnChar, if_neg hc, ih (fun hm => h (List.mem_cons_of_mem c hm))]

theorem splitOnChar_append {sep : Char} {a b : Str} (h : sep ∉ a) :
    splitOnChar sep (a ++ sep :: b) = a :: splitOnChar sep b := by
  induction a with
  | nil => simp [splitOnChar]
  | cons c t ih =>
    have hc : ¬c = sep := fun hh => h (hh ▸ List.mem_cons_self c t)
    rw [List.cons_append, splitOnChar, if_neg hc,
      ih (fun hm => h (List.mem_cons_of_mem c hm))]

/-- C3: for `decimals ∈ {6, 9}` and any `uint64` value, parsing the formatted
decimal string returns the original value. -/
theorem c3_parse_format_roundTrip (v decimals : Nat) (hv : v < 2 ^ 64)
    (_hd : decimals = 6 ∨ decimals = 9) :
    parseWithDecimals (formatWithDecimals v decimals) decimals = .ok v := by
  have hs0ne := natToDecChars_ne_nil v
  have hs0dig := natToDecChars_all_digits v
  set s0 := natToDecChars v with hs0
  set s : Str := List.replicate (decimals + 1 - s0.length) '0' ++ s0 with hs
  have hsdig : ∀ c ∈ s, isDecDigit c = true := by
    intro c hc
    rcases List.mem_append.mp hc with hc | hc
    · rw [List.eq_of_mem_replicate hc]; decide
    · exact hs0dig c hc
  have hs0len : 1 ≤ s0.length := by
    cases h0 : s0 with
    | nil => exact absurd h0 hs0ne
    | cons a t => simp
  have hslen : decimals < s.length := by
    rw [hs, List.length_append, List.length_replicate]
    omega
  have hval : charsVal s = v := by
    rw [hs, charsVal_append, charsVal_replicate_zero, hs0, charsVal_natToDecChars]
    ring
  have hform : formatWithDecimals v decimals =
      s.take (s.length - decimals) ++ '.' :: s.drop (s.length - decimals) := by
    rw [formatWithDecimals]
  set pos := s.length - decimals with hpos
  have htakedig : ∀ c ∈ s.take pos, isDecDigit c = true :=
    fun c hc => hsdig c (List.take_subset pos s hc)
  have hdropdig : ∀ c ∈ s.drop pos, isDecDigit c = true :=
    fun c hc => hsdig c (List.drop_subset pos s hc)
  have htrim : trimSpace (formatWithDecimals v decimals) = formatWithDecimals v decimals := by
    apply trimSpace_eq_self
    intro c hc
    rw [hform] at hc
    rcases List.mem_append.mp hc with hc | hc
    · exact not_whitespace_of_isDecDigit (htakedig c hc)
    · rcases List.mem_cons.mp hc with rfl | hc
      · decide
      · exact not_whitespace_of_isDecDigit (hdropdig c hc)
  have hsplit : splitOnChar '.' (formatWithDecimals v decimals) =
      [s.take pos, s.drop pos] := by
    rw [hform, splitOnChar_append, splitOnChar_of_not_mem]
    · intro hc
      exact ne_dot_of_isDecDigit (hdropdig _ hc) rfl
    · intro hc
      exact ne_dot_of_isDecDigit (htakedig _ hc) rfl
  have hfraclen : (s.drop pos).length = decimals := by
    rw [List.length_drop]
    omega
  have hne : formatWithDecimals v decimals ≠ [] := by
    rw [hform]
    simp
  rw [parseWithDecimals]
  simp only [htrim, if_neg hne, hsplit, hfraclen, lt_irrefl, if_false]
  rw [List.take_append_drop]
  rw [parseUint64]
  have hsne : s ≠ [] := by
    rw [hs]
    simp [hs0ne]
  rw [if_neg hsne, if_pos (List.all_eq_true.mpr hsdig), hval, if_pos hv]

/-- C3 witness: the spec's own example value at scale 9. -/
theorem c3_parse_format_roundTrip_witness :
    24981836 < 2 ^ 64 ∧
      parseWithDecimals (formatWithDecimals 24981836 9) 9 = .ok 24981836 :=
  ⟨by decide, c3_parse_format_roundTrip 24981836 9 (by decide) (Or.inr rfl)⟩

/-! ## Transaction reconciler (`internal/client`, `parseTransaction`)

The embedding covers transactions whose payload decoded successfully
(`decodedTx ≠ nil`) and whose meta is present — the inputs the reconciler
claims range over.  Per-holder token amounts are the already-parsed `uint64`
values (the source ignores `ParseUint` errors there, substituting 0). -/

structure TokenBalance where
  mint : Str
  owner : Option Str
  amount : Nat
deriving DecidableEq

structure TxInput where
  accountKeys : List Str
  preBalances : List Nat
  postBalances : List Nat
  preTokenBalances : List TokenBalance
  postTokenBalances : List TokenBalance
  fee : Nat
  slot : Nat
  blockTime : Option Int
  metaErr : Bool
deriving DecidableEq

/-- Field-for-field image of the Go `SolanaTransaction` record.  The Go
`Timestamp` (`time.Time`) is carried as the raw optional block time; when it
is `none` the source substitutes the current wall-clock time, which no claim
depends on. -/
structure SolanaTransaction where
  txType : Str
  txID : Str
  fromAddr : Str
  toAddr : Str
  amount : Str
  currency : Str
  ourFeeSOL : Str
  blockTime : Option Int
  blockNumber : Int
  status : Str
deriving DecidableEq

def debitChars : Str := "DEBIT".toList

def creditChars : Str := "CREDIT".toList

def usdcChars : Str := "USDC".toList

def solChars : Str := "SOL".toList

def successChars : Str := "success".toList

def failedChars : Str := "failed".toList

def zeroChars : Str := "0".toList

/-- Go map write `m[k] += v` (missing keys default to zero), on an
association list keyed in first-insertion order. -/
def mapAddInt (m : List (Str × Int)) (k : Str) (v : Int) : List (Str × Int) :=
  match m with
  | [] => [(k, v)]
  | (k0, v0) :: rest =>
    if k0 = k then (k0, v0 + v) :: rest else (k0, v0) :: mapAddInt rest k v

/-- Go map read `m[k]` with zero default. -/
def mapGetInt (m : List (Str × Int)) (k : Str) : Int :=
  match m.find? (fun p => p.1 == k) with
  | some p => p.2
  | none => 0

/-- The `usdcDeltas` map of `parseTransaction`: subtract pre-balances and add
post-balances, restricted to the tracked mint and entries with an owner. -/
def buildUSDCDeltas (input : TxInput) (mint : Str) : List (Str × Int) :=
  let m := input.preTokenBalances.foldl
    (fun m tb =>
      if tb.mint = mint then
        match tb.owner with
        | some o => mapAddInt m o (-(tb.amount : Int))
        | none => m
      else m) []
  input.postTokenBalances.foldl
    (fun m tb =>
      if tb.mint = mint then
        match tb.owner with
        | some o => mapAddInt m o (tb.amount : Int)
        | none => m
      else m) m

/-- The owner's raw SOL delta: `post - pre` at the first account index whose
key equals the owner (0 if the owner is not among the account keys). -/
def ownerSOLDeltaOf (input : TxInput) (ownerKey : Str) : Int :=
  match input.accountKeys.findIdx? (fun k => k == ownerKey) with
  | some i => (input.postBalances.getD i 0 : Int) - (input.preBalances.getD i 0 : Int)
  | none => 0

/-- First owner in the token-delta iteration order whose delta satisfies
`cond`; `[]` (Go's zero string) when none does. -/
def firstTokenMatch (order : List (Str × Int)) (cond : Int → Bool) : Str :=
  (((order.find? (fun p => cond p.2))).map (fun p => p.1)).getD []

/-- First account (in account-key order) other than the owner whose pre/post
balances satisfy `cond`; `[]` when none does. -/
def firstAccountWhere (input : TxInput) (ownerKey : Str) (cond : Nat → Nat → Bool) : Str :=
  (((List.range input.accountKeys.length).find? (fun i =>
      cond (input.preBalances.getD i 0) (input.postBalances.getD i 0)
        && input.accountKeys.getD i [] != ownerKey)).map
    (fun i => input.accountKeys.getD i [])).getD []

/-- Source `parseTransaction` (internal/client).  Go's `range` over the
`usdcDeltas` map visits entries in an order the runtime does not fix, so the
iteration order used by the two token counterparty searches is the explicit
parameter `tokenOrder`; every permutation of `buildUSDCDeltas input mint`
corresponds to a possible run of the source. -/
def parseTransaction (ownerKey mint signature : Str) (input : TxInput)
    (tokenOrder : List (Str × Int)) : Option SolanaTransaction :=
  let status := if input.metaErr then failedChars else successChars
  let ownerSOLDelta := ownerSOLDeltaOf input ownerKey
  let ourUSDCDelta := mapGetInt (buildUSDCDeltas input mint) ownerKey
  if ourUSDCDelta ≠ 0 then
    let txType := if 0 < ourUSDCDelta then debitChars else creditChars
    let amount := if 0 < ourUSDCDelta then ourUSDCDelta.toNat else (-ourUSDCDelta).toNat
    let fromA := if 0 < ourUSDCDelta then firstTokenMatch tokenOrder (fun d => d < 0) else ownerKey
    let toA := if 0 < ourUSDCDelta then ownerKey else firstTokenMatch tokenOrder (fun d => 0 < d)
    let feeStr := if txType = creditChars ∧ ownerSOLDelta < 0
      then lamportsToSOL (-ownerSOLDelta).toNat else zeroChars
    some { txType := txType, txID := signature, fromAddr := fromA, toAddr := toA,
           amount := microToUSDC amount, currency := usdcChars, ourFeeSOL := feeStr,
           blockTime := input.blockTime, blockNumber := (input.slot : Int), status := status }
  else
    if ownerSOLDelta = 0 then none
    else
      let ownerIndex := input.accountKeys.findIdx? (fun k => k == ownerKey)
      let isFeePayer := ownerIndex = some 0
      let actualSOLDelta :=
        if isFeePayer then ownerSOLDelta + (input.fee : Int) else ownerSOLDelta
      if actualSOLDelta = 0 then none
      else
        let txType := if 0 < actualSOLDelta then debitChars else creditChars
        let amount := if 0 < actualSOLDelta then actualSOLDelta.toNat else (-actualSOLDelta).toNat
        let fromA := if 0 < actualSOLDelta then
          firstAccountWhere input ownerKey (fun pre post => post < pre) else ownerKey
        let toA := if 0 < actualSOLDelta then ownerKey else
          firstAccountWhere input ownerKey (fun pre post => pre < post)
        let feeStr := if txType = creditChars ∧ isFeePayer
          then lamportsToSOL input.fee else zeroChars
        some { txType := txType, txID := signature, fromAddr := fromA, toAddr := toA,
               amount := lamportsToSOL amount, currency := solChars, ourFeeSOL := feeStr,
               blockTime := input.blockTime, blockNumber := (input.slot : Int), status := status }

/-! ### C1: fee attribution on token transfers -/

/-- The spec's own C1 example transaction: owner token delta +5,000,000
(incoming) and owner SOL delta -5,000. -/
def c1ExInput : TxInput :=
  { accountKeys := ["O".toList, "X".toList],
    preBalances := [1000000000, 50], postBalances := [999995000, 50],
    preTokenBalances := [⟨"M".toList, some ("X".toList), 5000000⟩],
    postTokenBalances := [⟨"M".toList, some ("O".toList), 5000000⟩],
    fee := 5000, slot := 7, blockTime := some 100, metaErr := false }

/-- C1 counterexample: on the spec's own example (incoming token transfer,
owner token delta +5,000,000, owner SOL delta -5,000) the source leaves the
fee field at `"0"` instead of populating it with the SOL amount lost. -/
theorem c1_counterexample :
    mapGetInt (buildUSDCDeltas c1ExInput ("M".toList)) ("O".toList) = 5000000 ∧
      ownerSOLDeltaOf c1ExInput ("O".toList) = -5000 ∧
      (parseTransaction ("O".toList) ("M".toList) ("sig".toList) c1ExInput
          (buildUSDCDeltas c1ExInput ("M".toList))).map SolanaTransaction.ourFeeSOL
        = some zeroChars ∧
      zeroChars ≠ lamportsToSOL 5000 := by
  refine ⟨by decide, by decide, by decide, by decide⟩

/-- C1 amended: for every transaction with non-zero owner token delta the
reconciler emits a token entry whose fee field is populated (with the SOL
amount lost) exactly when the transfer is OUTGOING (owner token delta < 0)
and the owner's SOL delta is negative; INCOMING token transfers report fee
`"0"`. -/
theorem c1_amended_fee_on_outgoing_only (ownerKey mint signature : Str) (input : TxInput)
    (tokenOrder : List (Str × Int))
    (h : mapGetInt (buildUSDCDeltas input mint) ownerKey ≠ 0) :
    ∃ tx, parseTransaction ownerKey mint signature input tokenOrder = some tx ∧
      tx.currency = usdcChars ∧
      tx.txType = (if 0 < mapGetInt (buildUSDCDeltas input mint) ownerKey
        then debitChars else creditChars) ∧
      tx.amount = microToUSDC (mapGetInt (buildUSDCDeltas input mint) ownerKey).natAbs ∧
      tx.ourFeeSOL = (if mapGetInt (buildUSDCDeltas input mint) ownerKey < 0
            ∧ ownerSOLDeltaOf input ownerKey < 0
        then lamportsToSOL (-(ownerSOLDeltaOf input ownerKey)).toNat else zeroChars) := by
  rcases h.lt_or_lt with hneg | hpos
  · have hnp : ¬ 0 < mapGetInt (buildUSDCDeltas input mint) ownerKey := by omega
    refine ⟨_, by rw [parseTransaction, if_pos h], rfl, ?_, ?_, ?_⟩
    · simp [hnp]
    · simp only [if_neg hnp]
      congr 1
      omega
    · simp only [if_neg hnp, hneg, true_and]
  · refine ⟨_, by rw [parseTransaction, if_pos h], rfl, ?_, ?_, ?_⟩
    · simp [hpos]
    · simp only [if_pos hpos]
      congr 1
      omega
    · simp only [if_pos hpos]
      rw [if_neg, if_neg]
      · omega
      · intro hh
        exact absurd hh.1 (by decide)

/-- C1 amended witness: the example input instantiated (outgoing variant uses
the counterexample input's mirror; here the incoming example shows fee `"0"`). -/
theorem c1_amended_fee_on_outgoing_only_witness :
    mapGetInt (buildUSDCDeltas c1ExInput ("M".toList)) ("O".toList) ≠ 0 ∧
      ∃ tx, parseTransaction ("O".toList) ("M".toList) ("sig".toList) c1ExInput
          (buildUSDCDeltas c1ExInput ("M".toList)) = some tx ∧
        tx.currency = usdcChars ∧
        tx.txType = (if 0 < mapGetInt (buildUSDCDeltas c1ExInput ("M".toList)) ("O".toList)
          then debitChars else creditChars) ∧
        tx.amount = microToUSDC
          (mapGetInt (buildUSDCDeltas c1ExInput ("M".toList)) ("O".toList)).natAbs ∧
        tx.ourFeeSOL = (if mapGetInt (buildUSDCDeltas c1ExInput ("M".toList)) ("O".toList) < 0
              ∧ ownerSOLDeltaOf c1ExInput ("O".toList) < 0
          then lamportsToSOL (-(ownerSOLDeltaOf c1ExInput ("O".toList))).toNat else zeroChars) :=
  ⟨by decide,
    c1_amended_fee_on_outgoing_only ("O".toList) ("M".toList) ("sig".toList) c1ExInput
      (buildUSDCDeltas c1ExInput ("M".toList)) (by decide)⟩

/-! ### C4: SOL fee isolation -/

/-- The spec's C4 example: zero token delta, owner is fee payer (first
account), raw SOL delta -5,005,000 lamports, declared fee 5,000 lamports. -/
def c4ExInput : TxInput :=
  { accountKeys := ["O".toList, "X".toList],
    preBalances := [10000000, 0], postBalances := [4995000, 5000000],
    preTokenBalances := [], postTokenBalances := [],
    fee := 5000, slot := 7, blockTime := some 100, metaErr := false }

/-- C4 counterexample: on the spec's example the fee string the source
produces is `"0.000005000"` (all nine fractional digits), not the claimed
literal `"0.000005"`. -/
theorem c4_counterexample :
    mapGetInt (buildUSDCDeltas c4ExInput ("M".toList)) ("O".toList) = 0 ∧
      ownerSOLDeltaOf c4ExInput ("O".toList) = -5005000 ∧
      c4ExInput.fee = 5000 ∧
      (parseTransaction ("O".toList) ("M".toList) ("sig".toList) c4ExInput []).map
          SolanaTransaction.ourFeeSOL = some (lamportsToSOL 5000) ∧
      lamportsToSOL 5000 = "0.000005000".toList ∧
      lamportsToSOL 5000 ≠ "0.000005".toList := by
  refine ⟨by decide, by decide, by decide, by decide, by decide, by decide⟩

/-- C4 amended: with zero owner token delta, the declared fee is removed from
the raw SOL delta when the owner is the fee payer (first account), the raw
delta is used unchanged otherwise, a zero isolated amount (or a zero raw
delta) yields no entry, and otherwise a SOL entry is produced whose direction
follows the sign of the isolated amount, whose amount is its magnitude, and
whose fee is `lamportsToSOL fee` (that is, `"0.000005000"` for fee 5,000)
exactly for outgoing entries where the owner is the fee payer. -/
theorem c4_sol_fee_isolation (ownerKey mint signature : Str) (input : TxInput)
    (tokenOrder : List (Str × Int))
    (h : mapGetInt (buildUSDCDeltas input mint) ownerKey = 0) :
    (ownerSOLDeltaOf input ownerKey = 0 →
      parseTransaction ownerKey mint signature input tokenOrder = none) ∧
    ((if input.accountKeys.findIdx? (fun k => k == ownerKey) = some 0
        then ownerSOLDeltaOf input ownerKey + (input.fee : Int)
        else ownerSOLDeltaOf input ownerKey) = 0 →
      parseTransaction ownerKey mint signature input tokenOrder = none) ∧
    (ownerSOLDeltaOf input ownerKey ≠ 0 →
      (if input.accountKeys.findIdx? (fun k => k == ownerKey) = some 0
        then ownerSOLDeltaOf input ownerKey + (input.fee : Int)
        else ownerSOLDeltaOf input ownerKey) ≠ 0 →
      ∃ tx, parseTransaction ownerKey mint signature input tokenOrder = some tx ∧
        tx.currency = solChars ∧
        tx.txType = (if 0 < (if input.accountKeys.findIdx? (fun k => k == ownerKey) = some 0
            then ownerSOLDeltaOf input ownerKey + (input.fee : Int)
            else ownerSOLDeltaOf input ownerKey) then debitChars else creditChars) ∧
        tx.amount = lamportsToSOL (if input.accountKeys.findIdx? (fun k => k == ownerKey) = some 0
            then ownerSOLDeltaOf input ownerKey + (input.fee : Int)
            else ownerSOLDeltaOf input ownerKey).natAbs ∧
        tx.ourFeeSOL = (if (if input.accountKeys.findIdx? (fun k => k == ownerKey) = some 0
              then ownerSOLDeltaOf input ownerKey + (input.fee : Int)
              else ownerSOLDeltaOf input ownerKey) < 0 ∧
            input.accountKeys.findIdx? (fun k => k == ownerKey) = some 0
          then lamportsToSOL input.fee else zeroChars)) := by
  refine ⟨?_, ?_, ?_⟩
  · intro hsol
    rw [parseTransaction, if_neg (fun hh => hh h), if_pos hsol]
  · intro hact
    by_cases hsol : ownerSOLDeltaOf input ownerKey = 0
    · rw [parseTransaction, if_neg (fun hh => hh h), if_pos hsol]
    · rw [parseTransaction, if_neg (fun hh => hh h), if_neg hsol, if_pos hact]
  · intro hsol hact
    rw [parseTransaction, if_neg (fun hh => hh h), if_neg hsol, if_neg hact]
    by_cases hpos : 0 < (if input.accountKeys.findIdx? (fun k => k == ownerKey) = some 0
        then ownerSOLDeltaOf input ownerKey + (input.fee : Int)
        else ownerSOLDeltaOf input ownerKey)
    · refine ⟨_, rfl, rfl, ?_, ?_, ?_⟩
      · simp [hpos]
      · simp only [if_pos hpos]
        congr 1
        omega
      · simp only [if_pos hpos]
        rw [if_neg, if_neg]
        · omega
        · intro hh
          exact absurd hh.1 (by decide)
    · refine ⟨_, rfl, rfl, ?_, ?_, ?_⟩
      · simp [hpos]
      · simp only [if_neg hpos]
        congr 1
        omega
      · simp only [if_neg hpos]
        have hlt : (if input.accountKeys.findIdx? (fun k => k == ownerKey) = some 0
            then ownerSOLDeltaOf input ownerKey + (input.fee : Int)
            else ownerSOLDeltaOf input ownerKey) < 0 := by omega
        simp only [hlt, true_and]

/-- C4 witness: the spec's example transaction (raw delta -5,005,000, fee
5,000) run through the amended theorem: outgoing entry of 5,000,000 lamports
with the corrected fee string. -/
theorem c4_sol_fee_isolation_witness :
    mapGetInt (buildUSDCDeltas c4ExInput ("M".toList)) ("O".toList) = 0 ∧
      ownerSOLDeltaOf c4ExInput ("O".toList) ≠ 0 ∧
      ∃ tx, parseTransaction ("O".toList) ("M".toList) ("sig".toList) c4ExInput [] = some tx ∧
        tx.currency = solChars ∧
        tx.txType = (if 0 < (if c4ExInput.accountKeys.findIdx? (fun k => k == "O".toList) = some 0
            then ownerSOLDeltaOf c4ExInput ("O".toList) + (c4ExInput.fee : Int)
            else ownerSOLDeltaOf c4ExInput ("O".toList)) then debitChars else creditChars) ∧
        tx.amount = lamportsToSOL
          (if c4ExInput.accountKeys.findIdx? (fun k => k == "O".toList) = some 0
            then ownerSOLDeltaOf c4ExInput ("O".toList) + (c4ExInput.fee : Int)
            else ownerSOLDeltaOf c4ExInput ("O".toList)).natAbs ∧
        tx.ourFeeSOL = (if (if c4ExInput.accountKeys.findIdx? (fun k => k == "O".toList) = some 0
              then ownerSOLDeltaOf c4ExInput ("O".toList) + (c4ExInput.fee : Int)
              else ownerSOLDeltaOf c4ExInput ("O".toList)) < 0 ∧
            c4ExInput.accountKeys.findIdx? (fun k => k == "O".toList) = some 0
          then lamportsToSOL c4ExInput.fee else zeroChars) := by
  have hyp : mapGetInt (buildUSDCDeltas c4ExInput ("M".toList)) ("O".toList) = 0 := by decide
  refine ⟨hyp, by decide, ?_⟩
  exact (c4_sol_fee_isolation ("O".toList) ("M".toList) ("sig".toList) c4ExInput [] hyp).2.2
    (by decide) (by decide)

/-! ### C9: counterparty selection and map iteration order -/

theorem find?_eq_head_filter {α : Type} (p : α → Bool) (l : List α) :
    l.find? p = (l.filter p).head? := by
  induction l with
  | nil => rfl
  | cons a t ih =>
    by_cases hp : p a
    · rw [List.find?_cons_of_pos _ hp, List.filter_cons_of_pos hp, List.head?_cons]
    · rw [List.find?_cons_of_neg _ (by simp [hp]), List.filter_cons_of_neg (by simp [hp]), ih]

theorem perm_eq_of_length_le_one {α : Type} {l m : List α} (h : l.Perm m)
    (hm : m.length ≤ 1) : l = m := by
  match m, hm with
  | [], _ => exact h.eq_nil
  | [a], _ => exact List.perm_singleton.mp h

theorem firstTokenMatch_perm_eq {order base : List (Str × Int)} {cond : Int → Bool}
    (h : order.Perm base) (hlen : (base.filter (fun p => cond p.2)).length ≤ 1) :
    firstTokenMatch order cond = firstTokenMatch base cond := by
  rw [firstTokenMatch, firstTokenMatch, find?_eq_head_filter, find?_eq_head_filter,
    perm_eq_of_length_le_one (h.filter (fun p => cond p.2)) hlen]

/-- A transaction with two token senders (deltas -4 and -6) and the owner
receiving +10: more than one opposite-sign candidate. -/
def c9ExInput : TxInput :=
  { accountKeys := ["O".toList],
    preBalances := [100], postBalances := [100],
    preTokenBalances := [⟨"M".toList, some ("A".toList), 4⟩, ⟨"M".toList, some ("B".toList), 6⟩],
    postTokenBalances := [⟨"M".toList, some ("O".toList), 10⟩],
    fee := 5000, slot := 7, blockTime := some 100, metaErr := false }

/-- C9 counterexample: two runs over the same transaction, differing only in
the (unspecified) Go map iteration order, produce different counterparties —
the reconciler's counterparty selection is not a function of the transaction
input alone. -/
theorem c9_counterexample :
    ([("B".toList, (-6 : Int)), ("A".toList, -4), ("O".toList, 10)]).Perm
        (buildUSDCDeltas c9ExInput ("M".toList)) ∧
      (parseTransaction ("O".toList) ("M".toList) ("sig".toList) c9ExInput
          (buildUSDCDeltas c9ExInput ("M".toList))).map SolanaTransaction.fromAddr
        = some ("A".toList) ∧
      (parseTransaction ("O".toList) ("M".toList) ("sig".toList) c9ExInput
          [("B".toList, -6), ("A".toList, -4), ("O".toList, 10)]).map
          SolanaTransaction.fromAddr = some ("B".toList) ∧
      parseTransaction ("O".toList) ("M".toList) ("sig".toList) c9ExInput
          (buildUSDCDeltas c9ExInput ("M".toList)) ≠
        parseTransaction ("O".toList) ("M".toList) ("sig".toList) c9ExInput
          [("B".toList, -6), ("A".toList, -4), ("O".toList, 10)] := by
  refine ⟨by decide, by decide, by decide, by decide⟩

/-- C9 amended: counterparty selection is deterministic whenever at most one
address has a negative token delta and at most one has a positive one (in
particular for ordinary two-party transfers): every map iteration order then
yields the same ledger entry.  With several opposite-sign candidates the
entry depends on the iteration order, which Go leaves unspecified. -/
theorem c9_unique_counterparty_deterministic (ownerKey mint signature : Str)
    (input : TxInput) (order1 order2 : List (Str × Int))
    (h1 : order1.Perm (buildUSDCDeltas input mint))
    (h2 : order2.Perm (buildUSDCDeltas input mint))
    (hneg : ((buildUSDCDeltas input mint).filter (fun p => p.2 < 0)).length ≤ 1)
    (hpos : ((buildUSDCDeltas input mint).filter (fun p => 0 < p.2)).length ≤ 1) :
    parseTransaction ownerKey mint signature input order1 =
      parseTransaction ownerKey mint signature input order2 := by
  have e1 : firstTokenMatch order1 (fun d => d < 0) =
      firstTokenMatch order2 (fun d => d < 0) := by
    rw [firstTokenMatch_perm_eq h1 hneg, firstTokenMatch_perm_eq h2 hneg]
  have e2 : firstTokenMatch order1 (fun d => 0 < d) =
      firstTokenMatch order2 (fun d => 0 < d) := by
    rw [firstTokenMatch_perm_eq h1 hpos, firstTokenMatch_perm_eq h2 hpos]
  simp only [parseTransaction, e1, e2]

/-- C9 witness: a two-party token transfer; both iteration orders of its
delta map give the same entry. -/
theorem c9_unique_counterparty_deterministic_witness :
    ([("X".toList, (-5000000 : Int)), ("O".toList, 5000000)]).Perm
        (buildUSDCDeltas c1ExInput ("M".toList)) ∧
      ([("O".toList, (5000000 : Int)), ("X".toList, -5000000)]).Perm
        (buildUSDCDeltas c1ExInput ("M".toList)) ∧
      parseTransaction ("O".toList) ("M".toList) ("sig".toList) c1ExInput
          [("X".toList, -5000000), ("O".toList, 5000000)] =
        parseTransaction ("O".toList) ("M".toList) ("sig".toList) c1ExInput
          [("O".toList, 5000000), ("X".toList, -5000000)] := by
  refine ⟨by decide, by decide, ?_⟩
  exact c9_unique_counterparty_deterministic ("O".toList) ("M".toList) ("sig".toList)
    c1ExInput _ _ (by decide) (by decide) (by decide) (by decide)

/-! ## Vault crypto engine (`internal/crypto`) and wallet generation

External collaborators (scrypt, AES-256-GCM, `encoding/json`,
`encoding/base64`, `crypto/rand`, the QR generator) are libraries outside
this repository; each is replaced by a small computable model of the
interface contract the source relies on: deterministic key derivation,
authenticated encryption whose `Open` inverts `Seal`, injective
serialization with a decoding inverse.  Randomness (salt, nonce, keypair)
and wall-clock values are explicit parameters.  The file system is an
association list from paths to byte contents. -/

structure WalletData where
  privateKey : Bytes
  createdAt : Str
deriving DecidableEq

structure CWTFile where
  network : Str
  address : Str
  qr : Str
  salt : Str
  nonce : Str
  cipherText : Str
deriving DecidableEq

/-- Model of `base64.StdEncoding.EncodeToString`: an injective byte-list to
text encoding (decimal numbers joined by commas) with a decoding inverse. -/
def b64Encode : Bytes → Str
  | [] => []
  | [b] => natToDecChars b
  | b :: rest => natToDecChars b ++ ',' :: b64Encode rest

/-- Model of `base64.StdEncoding.DecodeString`. -/
def b64DecodePart (part : Str) : Except Unit Nat :=
  if part ≠ [] ∧ part.all isDecDigit then .ok (charsVal part) else .error ()

/-- Effectful map over parts, with explicit equations (Go loops over the
parts and fails on the first bad one). -/
def exceptMapParts (f : Str → Except Unit Nat) : List Str → Except Unit Bytes
  | [] => .ok []
  | p :: rest => do
    let b ← f p
    let bs ← exceptMapParts f rest
    return b :: bs

def b64Decode (s : Str) : Except Unit Bytes :=
  if s = [] then .ok []
  else exceptMapParts b64DecodePart (splitOnChar ',' s)

/-- Model of `json.Marshal` on `WalletData`: length-prefixed key bytes
followed by the timestamp characters. -/
def encodeWalletData (w : WalletData) : Bytes :=
  w.privateKey.length :: (w.privateKey ++ w.createdAt.map Char.toNat)

/-- Model of `json.Unmarshal` into `WalletData`. -/
def decodeWalletData (bs : Bytes) : Except Unit WalletData :=
  match bs with
  | [] => .error ()
  | n :: rest =>
    if n ≤ rest.length then .ok ⟨rest.take n, (rest.drop n).map Char.ofNat⟩
    else .error ()

def encodeStrField (s : Str) : Bytes := s.length :: s.map Char.toNat

def decodeStrField (bs : Bytes) : Except Unit (Str × Bytes) :=
  match bs with
  | [] => .error ()
  | n :: rest =>
    if n ≤ rest.length then .ok ((rest.take n).map Char.ofNat, rest.drop n)
    else .error ()

/-- Model of `json.MarshalIndent` on the `.cwt` file record: the six string
fields, length-prefixed, in declaration order. -/
def encodeCWT (f : CWTFile) : Bytes :=
  encodeStrField f.network ++ encodeStrField f.address ++ encodeStrField f.qr ++
    encodeStrField f.salt ++ encodeStrField f.nonce ++ encodeStrField f.cipherText

/-- Model of `json.Unmarshal` into the `.cwt` file record. -/
def decodeCWT (bs : Bytes) : Except Unit CWTFile := do
  let (network, bs) ← decodeStrField bs
  let (address, bs) ← decodeStrField bs
  let (qr, bs) ← decodeStrField bs
  let (salt, bs) ← decodeStrField bs
  let (nonce, bs) ← decodeStrField bs
  let (cipherText, _) ← decodeStrField bs
  return ⟨network, address, qr, salt, nonce, cipherText⟩

/-- Model of `scrypt.Key(password, salt, N, r, p, 32)`: a deterministic
function of password and salt (determinism is the contract the source
relies on; the concrete mixing is irrelevant to the claims). -/
def scryptKey (password salt : Bytes) : Bytes := password ++ 0 :: salt

def keystreamAt (key nonce : Bytes) (i : Nat) : Nat :=
  key.sum * (i + 1) + nonce.sum + i

def sealBody (key nonce : Bytes) : Nat → Bytes → Bytes
  | _, [] => []
  | i, b :: rest => (b + keystreamAt key nonce i) :: sealBody key nonce (i + 1) rest

def openBody (key nonce : Bytes) : Nat → Bytes → Bytes
  | _, [] => []
  | i, b :: rest => (b - keystreamAt key nonce i) :: openBody key nonce (i + 1) rest

def gcmTag (key nonce ct : Bytes) : Bytes :=
  List.replicate 16 ((key.sum + nonce.sum + ct.sum) % 256)

/-- Model of AES-256-GCM `Seal`: transformed body followed by a 16-byte
authentication tag over key, nonce and body. -/
def gcmSeal (key nonce pt : Bytes) : Bytes :=
  let ct := sealBody key nonce 0 pt
  ct ++ gcmTag key nonce ct

/-- Model of AES-256-GCM `Open`: checks the tag, inverts the body
transformation; fails when the tag does not verify. -/
def gcmOpen (key nonce data : Bytes) : Except Unit Bytes :=
  if data.length < 16 then .error ()
  else
    let ct := data.take (data.length - 16)
    let tag := data.drop (data.length - 16)
    if tag = gcmTag key nonce ct then .ok (openBody key nonce 0 ct) else .error ()

abbrev Fs := List (Str × Bytes)

def fsGet (fs : Fs) (path : Str) : Option Bytes :=
  (fs.find? (fun p => p.1 == path)).map (fun p => p.2)

def fsSet (fs : Fs) (path : Str) (content : Bytes) : Fs := (path, content) :: fs

inductive CryptoErr where
  | badExtension
  | destNotEmpty
  | fileMissing
  | fileEmpty
  | badFormat
  | invalidPassword
deriving DecidableEq

/-- Source `EncryptWallet` (internal/crypto): extension check, refuse a
non-empty existing file, derive the key, seal the serialized wallet data,
assemble the `.cwt` record with base64 salt/nonce/ciphertext, and write it
prefixed with the UTF-8 byte-order marker `EF BB BF`.  Salt and nonce are
the caller-provided images of `rand.Reader`.  Error paths return the file
system unchanged. -/
def encryptWallet (fs : Fs) (filePath : Str) (network address qrCode : Str)
    (walletData : WalletData) (password salt nonce : Bytes) :
    Except CryptoErr Unit × Fs :=
  if (".cwt".toList).isSuffixOf filePath = false then (.error .badExtension, fs)
  else
    let existsNonEmpty : Bool := match fsGet fs filePath with
      | some contents => decide (0 < contents.length)
      | none => false
    if existsNonEmpty then (.error .destNotEmpty, fs)
    else
      let key := scryptKey password salt
      let plaintext := encodeWalletData walletData
      let ciphertext := gcmSeal key nonce plaintext
      let cwtFile : CWTFile :=
        ⟨network, address, qrCode, b64Encode salt, b64Encode nonce, b64Encode ciphertext⟩
      let fileData := encodeCWT cwtFile
      (.ok (), fsSet fs filePath (239 :: 187 :: 191 :: fileData))

/-- The BOM strip of `DecryptWallet` / `ReadWalletAddress`. -/
def stripBOM (bs : Bytes) : Bytes :=
  match bs with
  | 239 :: 187 :: 191 :: rest => rest
  | _ => bs

/-- Source `DecryptWallet` (internal/crypto): existence and emptiness
checks, BOM strip, record decode, base64 decodes, key re-derivation from the
embedded salt, authenticated open (any authentication failure surfaces as
the single invalid-password error), wallet-data decode. -/
def decryptWallet (fs : Fs) (filePath : Str) (password : Bytes) :
    Except CryptoErr (CWTFile × WalletData) :=
  match fsGet fs filePath with
  | none => .error .fileMissing
  | some fileData =>
    if fileData.length = 0 then .error .fileEmpty
    else
      (do
        let fileData := stripBOM fileData
        let cwtFile ← (decodeCWT fileData).mapError (fun _ => CryptoErr.badFormat)
        let salt ← (b64Decode cwtFile.salt).mapError (fun _ => CryptoErr.badFormat)
        let nonce ← (b64Decode cwtFile.nonce).mapError (fun _ => CryptoErr.badFormat)
        let ciphertext ← (b64Decode cwtFile.cipherText).mapError (fun _ => CryptoErr.badFormat)
        let key := scryptKey password salt
        let plaintext ← (gcmOpen key nonce ciphertext).mapError
          (fun _ => CryptoErr.invalidPassword)
        let walletData ← (decodeWalletData plaintext).mapError (fun _ => CryptoErr.badFormat)
        return (cwtFile, walletData))

/-! ### Round-trip lemmas for the vault pipeline -/

theorem exceptBindOk {e a b : Type} (x : a) (f : a → Except e b) :
    (Except.ok x >>= f) = f x := rfl

theorem ne_comma_of_isDecDigit {c : Char} (h : isDecDigit c = true) : c ≠ ',' := by
  intro hh
  subst hh
  exact absurd h (by decide)

theorem b64DecodePart_natToDecChars (b : Nat) :
    b64DecodePart (natToDecChars b) = .ok b := by
  rw [b64DecodePart,
    if_pos ⟨natToDecChars_ne_nil b, List.all_eq_true.mpr (natToDecChars_all_digits b)⟩,
    charsVal_natToDecChars]

theorem b64Encode_cons_cons (b c : Nat) (rest : Bytes) :
    b64Encode (b :: c :: rest) = natToDecChars b ++ ',' :: b64Encode (c :: rest) := rfl

theorem b64Encode_cons_ne_nil (b : Nat) (rest : Bytes) : b64Encode (b :: rest) ≠ [] := by
  cases rest with
  | nil => exact natToDecChars_ne_nil b
  | cons c rest2 =>
    rw [b64Encode_cons_cons]
    simp [natToDecChars_ne_nil]

theorem b64_roundTrip (bs : Bytes) : b64Decode (b64Encode bs) = .ok bs := by
  induction bs with
  | nil => rfl
  | cons b rest ih =>
    cases rest with
    | nil =>
      rw [b64Encode, b64Decode, if_neg (natToDecChars_ne_nil b),
        splitOnChar_of_not_mem
          (fun hc => ne_comma_of_isDecDigit (natToDecChars_all_digits b _ hc) rfl),
        exceptMapParts, b64DecodePart_natToDecChars, exceptBindOk, exceptMapParts]
      rfl
    | cons c rest2 =>
      rw [b64Decode, if_neg (b64Encode_cons_ne_nil c rest2)] at ih
      rw [b64Encode_cons_cons, b64Decode,
        if_neg (by simp [natToDecChars_ne_nil]),
        splitOnChar_append
          (fun hc => ne_comma_of_isDecDigit (natToDecChars_all_digits b _ hc) rfl),
        exceptMapParts, b64DecodePart_natToDecChars, exceptBindOk, ih]
      rfl

theorem decodeWalletData_encode (w : WalletData) :
    decodeWalletData (encodeWalletData w) = .ok w := by
  rw [encodeWalletData, decodeWalletData, if_pos (by simp)]
  simp [List.take_left' (List.length_map _ _).symm, List.drop_left' (List.length_map _ _).symm]
  simp [Function.comp_def]

theorem decodeStrField_encode (s : Str) (rest : Bytes) :
    decodeStrField (encodeStrField s ++ rest) = .ok (s, rest) := by
  rw [encodeStrField, List.cons_append, decodeStrField, if_pos (by simp)]
  rw [List.take_left' (by simp), List.drop_left' (by simp)]
  simp [Function.comp_def]

theorem decodeStrField_encode_nil (s : Str) :
    decodeStrField (encodeStrField s) = .ok (s, []) := by
  rw [← List.append_nil (encodeStrField s), decodeStrField_encode]

theorem decodeCWT_encode (f : CWTFile) : decodeCWT (encodeCWT f) = .ok f := by
  rw [decodeCWT, encodeCWT]
  simp only [List.append_assoc]
  rw [decodeStrField_encode, exceptBindOk]
  rw [decodeStrField_encode, exceptBindOk]
  rw [decodeStrField_encode, exceptBindOk]
  rw [decodeStrField_encode, exceptBindOk]
  rw [decodeStrField_encode, exceptBindOk]
  rw [decodeStrField_encode_nil]
  rfl

theorem openBody_sealBody (key nonce pt : Bytes) :
    ∀ i, openBody key nonce i (sealBody key nonce i pt) = pt := by
  induction pt with
  | nil => intro i; rfl
  | cons b rest ih =>
    intro i
    rw [sealBody, openBody]
    simp [Nat.add_sub_cancel, ih]

theorem sealBody_length (key nonce pt : Bytes) :
    ∀ i, (sealBody key nonce i pt).length = pt.length := by
  induction pt with
  | nil => intro i; rfl
  | cons b rest ih =>
    intro i
    rw [sealBody]
    simp [ih]

theorem gcmOpen_gcmSeal (key nonce pt : Bytes) :
    gcmOpen key nonce (gcmSeal key nonce pt) = .ok pt := by
  rw [gcmSeal, gcmOpen]
  have hlen : (sealBody key nonce 0 pt ++ gcmTag key nonce (sealBody key nonce 0 pt)).length
      = (sealBody key nonce 0 pt).length + 16 := by
    simp [gcmTag]
  rw [if_neg (by omega), hlen, Nat.add_sub_cancel, List.take_left, List.drop_left,
    if_pos rfl, openBody_sealBody]

theorem fsGet_fsSet (fs : Fs) (path : Str) (content : Bytes) :
    fsGet (fsSet fs path content) path = some content := by
  rw [fsSet, fsGet, List.find?_cons_of_pos _ (by simp)]
  rfl

theorem exceptMapErrorOk {e eo a : Type} (x : a) (f : e → eo) :
    (Except.ok x).mapError f = .ok x := rfl

theorem stripBOM_cons (rest : Bytes) : stripBOM (239 :: 187 :: 191 :: rest) = rest := rfl

/-- C2: for every wallet secret and password, decrypting the vault produced
by encrypting that secret under that password returns the original secret;
encryption writes the UTF-8 byte-order marker, which decryption strips
before parsing. -/
theorem c2_encrypt_decrypt_roundTrip (fs : Fs) (filePath network address qrCode : Str)
    (walletData : WalletData) (password salt nonce : Bytes)
    (hsuffix : (".cwt".toList).isSuffixOf filePath = true)
    (hempty : fsGet fs filePath = none ∨ fsGet fs filePath = some []) :
    ∃ fs2 cwt,
      encryptWallet fs filePath network address qrCode walletData password salt nonce
        = (.ok (), fs2) ∧
      fsGet fs2 filePath = some (239 :: 187 :: 191 :: encodeCWT cwt) ∧
      decryptWallet fs2 filePath password = .ok (cwt, walletData) := by
  have hnonempty : (match fsGet fs filePath with
      | some contents => decide (0 < contents.length)
      | none => false) = false := by
    rcases hempty with h | h <;> rw [h]
    rfl
  rw [encryptWallet, hsuffix]
  simp only [Bool.true_eq_false, if_false, hnonempty, if_neg (Bool.false_ne_true)]
  refine ⟨_, _, rfl, fsGet_fsSet _ _ _, ?_⟩
  rw [decryptWallet, fsGet_fsSet]
  simp only [List.length_cons, Nat.succ_ne_zero, if_false, stripBOM_cons, decodeCWT_encode,
    exceptMapErrorOk, exceptBindOk, b64_roundTrip, gcmOpen_gcmSeal, decodeWalletData_encode]
  rfl

/-- C2 witness: a concrete secret, password, salt and nonce run through the
round trip on an empty file system. -/
theorem c2_encrypt_decrypt_roundTrip_witness :
    (".cwt".toList).isSuffixOf ("w.cwt".toList) = true ∧
      ∃ fs2 cwt,
        encryptWallet [] ("w.cwt".toList) ("solana".toList) ("A".toList) ("Q".toList)
            ⟨[1, 2], "t".toList⟩ [7] [5] [6] = (.ok (), fs2) ∧
        fsGet fs2 ("w.cwt".toList) = some (239 :: 187 :: 191 :: encodeCWT cwt) ∧
        decryptWallet fs2 ("w.cwt".toList) [7] = .ok (cwt, ⟨[1, 2], "t".toList⟩) :=
  ⟨by decide,
    c2_encrypt_decrypt_roundTrip [] ("w.cwt".toList) ("solana".toList) ("A".toList)
      ("Q".toList) ⟨[1, 2], "t".toList⟩ [7] [5] [6] (by decide) (Or.inl rfl)⟩

/-! ### C7: wallet generation against an existing file (`solana/generate.go`) -/

deriving instance DecidableEq for Except

inductive GenErr where
  | badExtension
  | fileExists (message : Str)
  | encryptFailed (e : CryptoErr)
deriving DecidableEq

/-- Source `IsFileExistsError`: a type test on `*FileExistsError`. -/
def IsFileExistsError : GenErr → Bool
  | .fileExists _ => true
  | _ => false

/-- Model of `filepath.Ext`: the suffix beginning at the final dot, empty
when there is no dot (path separators play no role in the claims). -/
def pathExt (path : Str) : Str :=
  match splitOnChar '.' path with
  | [] => []
  | [_] => []
  | parts => '.' :: parts.getLastD []

/-- Model of `generateQRCode`: an opaque deterministic image encoding of the
address (its contents are irrelevant to every claim). -/
def qrCodeOf (address : Str) : Str := address

/-- Source `GenerateWallet` (solana/generate.go): extension check via
`filepath.Ext`, refusal of a non-empty existing file with the dedicated
`FileExistsError`, then QR generation and `EncryptWallet`.  The fresh
keypair (`solana.NewWallet`), timestamp and randomness are caller-provided.
The file system is returned alongside the result; error paths leave it
unchanged. -/
def generateWallet (fs : Fs) (filePath : Str) (password : Bytes)
    (keypairPriv : Bytes) (keypairAddress : Str) (createdAt : Str)
    (salt nonce : Bytes) : Except GenErr Str × Fs :=
  if pathExt filePath ≠ ".cwt".toList then (.error .badExtension, fs)
  else
    let existsNonEmpty : Bool := match fsGet fs filePath with
      | some contents => decide (0 < contents.length)
      | none => false
    if existsNonEmpty then (.error (.fileExists ("file is not empty".toList)), fs)
    else
      match encryptWallet fs filePath ("solana".toList) keypairAddress
          (qrCodeOf keypairAddress) ⟨keypairPriv, createdAt⟩ password salt nonce with
      | (.ok _, fs2) => (.ok keypairAddress, fs2)
      | (.error e, fs2) => (.error (.encryptFailed e), fs2)

/-- C7 counterexample: calling wallet generation on an existing non-empty
file whose name lacks the `.cwt` extension fails with the generic extension
error, which `IsFileExistsError` does not recognize — not with the distinct
destination-exists condition the claim requires for every such call.  (The
file is still left untouched.) -/
theorem c7_counterexample :
    fsGet [(("w.txt".toList : Str), ([1] : Bytes))] ("w.txt".toList) = some [1] ∧
      generateWallet [(("w.txt".toList : Str), ([1] : Bytes))] ("w.txt".toList)
          [7] [1, 2] ("A".toList) ("t".toList) [5] [6]
        = (.error .badExtension, [(("w.txt".toList : Str), ([1] : Bytes))]) ∧
      IsFileExistsError .badExtension = false := by
  refine ⟨by decide, by decide, by decide⟩

/-- C7 amended: for every call whose target path has the `.cwt` extension
and names an existing non-empty file, generation fails with the dedicated
`FileExistsError` (recognizable via `IsFileExistsError`) and the file system
is unchanged; for a non-`.cwt` path the call still fails without touching
the file, but with the generic extension error. -/
theorem c7_destination_exists (fs : Fs) (filePath : Str) (password : Bytes)
    (keypairPriv : Bytes) (keypairAddress createdAt : Str) (salt nonce : Bytes)
    (contents : Bytes) (hext : pathExt filePath = ".cwt".toList)
    (hget : fsGet fs filePath = some contents) (hne : contents ≠ []) :
    generateWallet fs filePath password keypairPriv keypairAddress createdAt salt nonce
        = (.error (.fileExists ("file is not empty".toList)), fs) ∧
      IsFileExistsError (.fileExists ("file is not empty".toList)) = true := by
  refine ⟨?_, rfl⟩
  rw [generateWallet, if_neg (by rw [hext]; exact fun hh => hh rfl)]
  have hx : (match fsGet fs filePath with
      | some contents => decide (0 < contents.length)
      | none => false) = true := by
    rw [hget]
    simp [List.length_pos, hne]
  simp only [hx, if_true]

/-- C7 witness: a `.cwt` path holding a non-empty file. -/
theorem c7_destination_exists_witness :
    pathExt ("w.cwt".toList) = ".cwt".toList ∧
      fsGet [(("w.cwt".toList : Str), ([1] : Bytes))] ("w.cwt".toList) = some [1] ∧
      generateWallet [(("w.cwt".toList : Str), ([1] : Bytes))] ("w.cwt".toList)
          [7] [1, 2] ("A".toList) ("t".toList) [5] [6]
        = (.error (.fileExists ("file is not empty".toList)),
           [(("w.cwt".toList : Str), ([1] : Bytes))]) ∧
      IsFileExistsError (.fileExists ("file is not empty".toList)) = true := by
  refine ⟨by decide, by decide, ?_, ?_⟩
  · exact (c7_destination_exists [(("w.cwt".toList : Str), ([1] : Bytes))] ("w.cwt".toList)
      [7] [1, 2] ("A".toList) ("t".toList) [5] [6] [1] (by decide) (by decide) (by decide)).1
  · exact (c7_destination_exists [(("w.cwt".toList : Str), ([1] : Bytes))] ("w.cwt".toList)
      [7] [1, 2] ("A".toList) ("t".toList) [5] [6] [1] (by decide) (by decide) (by decide)).2

/-! ### C6: pay guard (`solana` package `PayUSDC` / `PaySOL`)

The pay functions run under one mutex, so a call is an atomic state
transition on the shared `lastPayTime` (`none` models Go's zero `time.Time`).
External collaborators (address validation, file read, decryption, RPC
client, balance fetch, chain submission) are oracles in `PayDeps`; wall
clock instants and the cooldown share one arbitrary time unit. -/

def solFeeLamports : Nat := 5000

structure PayDeps where
  validToAddress : Bool
  now : Int
  readAddressResult : Except Unit Str
  decryptResult : Except Unit WalletData
  addressParses : Bool
  keyMatchesAddress : Bool
  clientOk : Bool
  balanceResult : Except Unit (Nat × Nat)
  submitResult : Except Unit Str

/-- Source `PayUSDC`: validation, cooldown check, read, decrypt, key length
and match checks, client creation, balance fetch, amount conversion through
the real codec, sufficiency checks, submission; `lastPayTime` is set to now
only after submission succeeds.  Result and the new cooldown state. -/
def payUSDC (st : Option Int) (deps : PayDeps) (amount : Str) (cooldownMinutes : Nat) :
    Except Unit Str × Option Int :=
  if deps.validToAddress = false then (.error (), st)
  else
    if (match st with
      | some last => decide (deps.now - last < (cooldownMinutes : Int))
      | none => false) then (.error (), st)
    else
      match deps.readAddressResult with
      | .error _ => (.error (), st)
      | .ok _address =>
        match deps.decryptResult with
        | .error _ => (.error (), st)
        | .ok walletData =>
          if walletData.privateKey.length ≠ 64 then (.error (), st)
          else if deps.addressParses = false then (.error (), st)
          else if deps.keyMatchesAddress = false then (.error (), st)
          else if deps.clientOk = false then (.error (), st)
          else
            match deps.balanceResult with
            | .error _ => (.error (), st)
            | .ok (usdcBalMicro, solBalLamports) =>
              match usdcToMicro amount with
              | .error _ => (.error (), st)
              | .ok usdcAmountMicro =>
                if usdcBalMicro < usdcAmountMicro then (.error (), st)
                else if solBalLamports < solFeeLamports then (.error (), st)
                else
                  match deps.submitResult with
                  | .error _ => (.error (), st)
                  | .ok txID => (.ok txID, some deps.now)

/-- Source `PaySOL`: as `PayUSDC` but the amount converts at 9 decimals and
the sufficiency check is against amount plus fee with Go's wrapping `uint64`
addition. -/
def paySOL (st : Option Int) (deps : PayDeps) (amount : Str) (cooldownMinutes : Nat) :
    Except Unit Str × Option Int :=
  if deps.validToAddress = false then (.error (), st)
  else
    if (match st with
      | some last => decide (deps.now - last < (cooldownMinutes : Int))
      | none => false) then (.error (), st)
    else
      match deps.readAddressResult with
      | .error _ => (.error (), st)
      | .ok _address =>
        match deps.decryptResult with
        | .error _ => (.error (), st)
        | .ok walletData =>
          if walletData.privateKey.length ≠ 64 then (.error (), st)
          else if deps.addressParses = false then (.error (), st)
          else if deps.keyMatchesAddress = false then (.error (), st)
          else if deps.clientOk = false then (.error (), st)
          else
            match deps.balanceResult with
            | .error _ => (.error (), st)
            | .ok (_usdcBalMicro, solBalLamports) =>
              match solToLamports amount with
              | .error _ => (.error (), st)
              | .ok solAmountLamports =>
                if solBalLamports < (solAmountLamports + solFeeLamports) % 2 ^ 64
                then (.error (), st)
                else
                  match deps.submitResult with
                  | .error _ => (.error (), st)
                  | .ok txID => (.ok txID, some deps.now)

set_option maxRecDepth 100000 in
set_option maxHeartbeats 2000000 in
/-- C6: every call to either pay operation either fails leaving the shared
cooldown timestamp exactly as it was, or succeeds (which requires chain
submission to have succeeded) and sets it to "now" — exactly one update per
successful submission, none on any error path. -/
theorem c6_cooldown_update_on_success_only (st : Option Int) (deps : PayDeps)
    (amount : Str) (cooldownMinutes : Nat) :
    ((∃ e, payUSDC st deps amount cooldownMinutes = (.error e, st)) ∨
      (∃ txID, payUSDC st deps amount cooldownMinutes = (.ok txID, some deps.now))) ∧
    ((∃ e, paySOL st deps amount cooldownMinutes = (.error e, st)) ∨
      (∃ txID, paySOL st deps amount cooldownMinutes = (.ok txID, some deps.now))) := by
  constructor
  · rw [payUSDC.eq_def]
    repeat' split
    all_goals first
      | exact Or.inl ⟨_, rfl⟩
      | exact Or.inr ⟨_, rfl⟩
  · rw [paySOL.eq_def]
    repeat' split
    all_goals first
      | exact Or.inl ⟨_, rfl⟩
      | exact Or.inr ⟨_, rfl⟩

/-! ### C8: history request validation (`internal/model` `Validate` and the
HTTP handler `TransactionHistory`) -/

structure LogRequest where
  txType : Option Str
  txID : Option Str
  fromTime : Option Int
  toTime : Option Int
  minAmount : Option Str
  maxAmount : Option Str
  currency : Option Str

/-- Source `LogRequest.Validate` (internal/model/transaction.go): type,
currency, date-order and amount-order checks, the last through
`CompareUSDCAmounts` (integer comparison). -/
def validateLogRequest (req : LogRequest) : Except Unit Unit :=
  let badType : Bool := match req.txType with
    | some t => decide (t ≠ debitChars) && decide (t ≠ creditChars)
    | none => false
  if badType then .error ()
  else
    let badCurrency : Bool := match req.currency with
      | some c => decide (c ≠ usdcChars) && decide (c ≠ solChars)
      | none => false
    if badCurrency then .error ()
    else
      let badDates : Bool := match req.fromTime, req.toTime with
        | some f, some t => decide (t < f)
        | _, _ => false
      if badDates then .error ()
      else
        match req.minAmount, req.maxAmount with
        | some mn, some mx =>
          match compareUSDCAmounts mn mx with
          | .error _ => .error ()
          | .ok cmp => if cmp = 1 then .error () else .ok ()
        | _, _ => .ok ()

/-- The handler's control flow around the history request: `Validate` runs
first and a validation failure returns before `GetTransactions` (and hence
reconciliation) is invoked; `reconcile` stands for that entire downstream
call. -/
def transactionHistoryHandler (req : LogRequest)
    (reconcile : Unit → Except Unit (List SolanaTransaction)) :
    Except Unit (List SolanaTransaction) :=
  match validateLogRequest req with
  | .error e => .error e
  | .ok _ => reconcile ()

/-- C8: a request whose minimum amount exceeds its maximum amount (by the
codec's integer comparison) fails validation, and the handler rejects it
identically for every possible reconciler — reconciliation never runs. -/
theorem c8_min_above_max_rejected (req : LogRequest) (mn mx : Str) (a b : Nat)
    (hmn : req.minAmount = some mn) (hmx : req.maxAmount = some mx)
    (hpa : parseWithDecimals mn USDCDecimals = .ok a)
    (hpb : parseWithDecimals mx USDCDecimals = .ok b) (hab : b < a) :
    validateLogRequest req = .error () ∧
      ∀ reconcile, transactionHistoryHandler req reconcile = .error () := by
  have hcmp : compareUSDCAmounts mn mx = .ok 1 := by
    rw [compareUSDCAmounts.eq_def, hpa, hpb]
    show Except.ok (if a < b then (-1 : Int) else if b < a then 1 else 0) = .ok 1
    rw [if_neg (by omega), if_pos hab]
  have hval : validateLogRequest req = .error () := by
    simp only [validateLogRequest, hmn, hmx, hcmp, ite_self]
    repeat' split
    all_goals simp_all
  exact ⟨hval, fun reconcile => by rw [transactionHistoryHandler, hval]⟩

/-- C8 witness: minimum `"2"`, maximum `"1"`. -/
theorem c8_min_above_max_rejected_witness :
    validateLogRequest ⟨none, none, none, none, some ("2".toList), some ("1".toList), none⟩
        = .error () ∧
      ∀ reconcile, transactionHistoryHandler
        ⟨none, none, none, none, some ("2".toList), some ("1".toList), none⟩ reconcile
        = .error () :=
  c8_min_above_max_rejected _ ("2".toList) ("1".toList) 2000000 1000000 rfl rfl
    (by decide) (by decide) (by decide)

/-! ### C5: history totals (`solana` package `GetTransactions`)

The source computes `total_income_USDC` / `total_spent_USDC` with
`strconv.ParseFloat`, `float64` accumulation and `fmt.Sprintf("%.6f", ...)`.
binary64 arithmetic on the non-negative normal range is exact rational
rounding: every finite positive double is `m * 2 ^ (e - 52)` with
`2 ^ 52 ≤ m < 2 ^ 53`, and each operation rounds its exact rational value to
the nearest such number, ties to even.  Exact values are carried as
unnormalized non-negative fractions (`PosRat`, numerator over non-zero
denominator) so every step is plain `Nat` arithmetic.  The amounts the
wallet produces are always non-negative, which this model covers. -/

structure PosRat where
  n : Nat
  d : Nat

def rqAdd (a b : PosRat) : PosRat := ⟨a.n * b.d + b.n * a.d, a.d * b.d⟩

def rqMul (a b : PosRat) : PosRat := ⟨a.n * b.n, a.d * b.d⟩

def log2Fuel : Nat → Nat → Nat
  | 0, _ => 0
  | fuel + 1, n => if n < 2 then 0 else 1 + log2Fuel fuel (n / 2)

/-- `⌊log2 n⌋` for positive `n` (0 at 0). -/
def natLog2 (n : Nat) : Nat := log2Fuel (n + 1) n

/-- Round a non-negative fraction to the nearest integer, ties to even (the
IEEE-754 default and the rounding Go's `%.6f` formatting applies to the
exact binary value). -/
def rqRoundHalfToEven (x : PosRat) : Nat :=
  let f := x.n / x.d
  if x.n % x.d * 2 < x.d then f
  else if x.d < x.n % x.d * 2 then f + 1
  else if f % 2 = 0 then f else f + 1

/-- `2 ^ e` as a fraction, for an integer exponent of either sign. -/
def rqPow2Z (e : Int) : PosRat :=
  if 0 ≤ e then ⟨2 ^ e.toNat, 1⟩ else ⟨1, 2 ^ (-e).toNat⟩

/-- `⌊log2 q⌋` of a positive fraction: the binade exponent of a double. -/
def rqFloorLog2 (q : PosRat) : Int :=
  if q.d ≤ q.n then (natLog2 (q.n / q.d) : Int)
  else -((((List.range 1200).find? (fun k =>
    decide (q.d ≤ q.n * 2 ^ k))).getD 1200 : Nat) : Int)

/-- Round a non-negative fraction to the nearest binary64 value (round to
nearest, ties to even); exact on the normal non-overflowing range, which
covers every value in the claims. -/
def roundToDouble (q : PosRat) : PosRat :=
  if q.n = 0 then ⟨0, 1⟩
  else
    let e := rqFloorLog2 q
    rqMul ⟨rqRoundHalfToEven (rqMul q (rqPow2Z (52 - e))), 1⟩ (rqPow2Z (e - 52))

/-- Model of `strconv.ParseFloat(s, 64)` for the plain decimal strings the
wallet produces: the exact rational value of the digits, rounded to the
nearest binary64. -/
def parseFloat64 (s : Str) : Except Unit PosRat :=
  match splitOnChar '.' s with
  | [p] =>
    if p ≠ [] ∧ p.all isDecDigit then .ok (roundToDouble ⟨charsVal p, 1⟩) else .error ()
  | [whole, frac] =>
    if whole ≠ [] ∧ whole.all isDecDigit ∧ frac ≠ [] ∧ frac.all isDecDigit then
      .ok (roundToDouble
        ⟨charsVal whole * 10 ^ frac.length + charsVal frac, 10 ^ frac.length⟩)
    else .error ()
  | _ => .error ()

/-- `float64` addition: the exact sum, rounded back to binary64. -/
def addFloat64 (a b : PosRat) : PosRat := roundToDouble (rqAdd a b)

/-- Model of `fmt.Sprintf("%.6f", x)` for non-negative `x`: the decimal
expansion correctly rounded (ties to even) to six fractional digits. -/
def sprintf6 (x : PosRat) : Str :=
  formatWithDecimals (rqRoundHalfToEven (rqMul x ⟨10 ^ 6, 1⟩)) 6

/-- Source totals loop of `GetTransactions` (solana package, lines computing
`total_income_USDC` / `total_spent_USDC`): skip non-USDC entries, parse each
amount as a `float64` (skipping parse failures), accumulate income on DEBIT
and spending on CREDIT in `float64`, format both with `%.6f`. -/
def totalsUSDCFloat (txs : List SolanaTransaction) : Str × Str :=
  let pair := txs.foldl (fun acc tx =>
    if tx.currency ≠ usdcChars then acc
    else match parseFloat64 tx.amount with
      | .error _ => acc
      | .ok amt =>
        if tx.txType = debitChars then (addFloat64 acc.1 amt, acc.2)
        else if tx.txType = creditChars then (acc.1, addFloat64 acc.2 amt)
        else acc) ((⟨0, 1⟩ : PosRat), (⟨0, 1⟩ : PosRat))
  (sprintf6 pair.1, sprintf6 pair.2)

/-- Modelled from the spec: the exact aggregate view — token-currency
incoming and outgoing amounts summed as integers in base units over the
filtered subset, native-coin entries excluded, no floating point, rendered
at six decimals. -/
def totalsUSDCExact (txs : List SolanaTransaction) : Str × Str :=
  let pair := txs.foldl (fun acc tx =>
    if tx.currency ≠ usdcChars then acc
    else match parseWithDecimals tx.amount USDCDecimals with
      | .error _ => acc
      | .ok amt =>
        if tx.txType = debitChars then (acc.1 + amt, acc.2)
        else if tx.txType = creditChars then (acc.1, acc.2 + amt)
        else acc) ((0 : Nat), (0 : Nat))
  (formatWithDecimals pair.1 6, formatWithDecimals pair.2 6)

/-- A single incoming USDC entry of 2^64 - 1 micro-USDC (a representable
`uint64` balance), whose decimal string has more significant digits than a
binary64 can hold. -/
def c5ExTx : SolanaTransaction :=
  { txType := debitChars, txID := "sig".toList, fromAddr := "X".toList,
    toAddr := "O".toList, amount := microToUSDC (2 ^ 64 - 1), currency := usdcChars,
    ourFeeSOL := zeroChars, blockTime := some 100, blockNumber := 7,
    status := successChars }

set_option maxRecDepth 10000 in
/-- C5: the totals are NOT computed without floating point — on a single
incoming USDC entry of 18446744073709.551615 (2^64 - 1 micro-USDC) the
source's float64 pipeline reports total income 18446744073709.550781,
while the exact integer sum required by the claim is 18446744073709.551615. -/
theorem c5_float_totals_diverge :
    totalsUSDCExact [c5ExTx] = ("18446744073709.551615".toList, "0.000000".toList) ∧
      totalsUSDCFloat [c5ExTx] = ("18446744073709.550781".toList, "0.000000".toList) ∧
      totalsUSDCFloat [c5ExTx] ≠ totalsUSDCExact [c5ExTx] := by
  refine ⟨by decide, by decide, by decide⟩
